import Mathlib

/-!
Verification of the PID_Thermal_Wire control-loop programs.

The definitions below are a shallow embedding of the Python sources
`T_control_loop_2.py`, `PWM_CTE.py`, `gray_calibrate.py` and `read_temp2.py`.
Python floats are modelled as exact rationals (`ℚ`), `None`-able values as
`Option`, and the stateful classes (`OutlierFilter`, `PID`) as explicit
state-passing functions.  The control loops are modelled as recursion over a
finite script of ticks, each tick carrying the measurement observed at that
tick (or `none`) and whether the serial write attempted at that tick succeeds
(a raised write error aborts the loop body; whether it then reaches the
`finally` shutdown block depends on whether the aborted code sits inside the
`try`, exactly as in the Python code — `T_control_loop_2.py`'s preheat loop
runs before its `try`, `PWM_CTE.py`'s whole loop runs inside it).
-/

namespace ThermalWire

/-! ## Outlier filter (`T_control_loop_2.py`, class `OutlierFilter`)

```python
def update(self, v):
    if self.prev is not None and abs(v - self.prev) > self.max_delta:
        return self.prev
    self.prev = v; return v
```
-/

structure OutlierFilter where
  prev : Option ℚ
  max_delta : ℚ
  deriving DecidableEq

/-- Python's built-in `abs` on a float. -/
def pyAbs (q : ℚ) : ℚ := if q < 0 then -q else q

theorem pyAbs_eq_abs (q : ℚ) : pyAbs q = |q| := by
  rcases lt_or_le q 0 with h | h
  · rw [pyAbs, if_pos h, abs_of_neg h]
  · rw [pyAbs, if_neg (not_lt.mpr h), abs_of_nonneg h]

/-- One call of `OutlierFilter.update`: returns the filtered value and the
updated filter state. -/
def OutlierFilter.update (f : OutlierFilter) (v : ℚ) : ℚ × OutlierFilter :=
  match f.prev with
  | some p =>
      if pyAbs (v - p) > f.max_delta then (p, f)
      else (v, ⟨some v, f.max_delta⟩)
  | none => (v, ⟨some v, f.max_delta⟩)

/-! ## PID controller (`T_control_loop_2.py`, class `PID`)

```python
def update(self, pv):
    now = time.time()
    e = self.setpoint - pv
    dt = now - self._last_time if self._last_time else 0.0
    d = (e - self._last_error)/dt if (self._last_time and dt>0) else 0.0
    self._integral += e*dt
    out = self.Kp*e + self.Ki*self._integral + self.Kd*d
    lo, hi = self.output_limits; out = max(lo, min(hi, out))
    self._last_error, self._last_time = e, now
    return int(out), e
```

Python truthiness: `self._last_time` is truthy iff it is not `None` and not
`0.0`; `int` truncates toward zero. -/

structure PIDState where
  integral : ℚ
  last_error : ℚ
  last_time : Option ℚ
  deriving DecidableEq

/-- Python `int()` applied to a float: truncation toward zero. -/
def pyInt (q : ℚ) : ℤ := if 0 ≤ q then ⌊q⌋ else ⌈q⌉

/-- `dt = now - self._last_time if self._last_time else 0.0`
(`self._last_time` is truthy iff it is some value other than `0.0`). -/
def pidDt (last_time : Option ℚ) (now : ℚ) : ℚ :=
  match last_time with
  | some t => if t ≠ 0 then now - t else 0
  | none => 0

/-- `d = (e - self._last_error)/dt if (self._last_time and dt>0) else 0.0`. -/
def pidDeriv (last_time : Option ℚ) (dt e last_error : ℚ) : ℚ :=
  match last_time with
  | some t => if t ≠ 0 ∧ 0 < dt then (e - last_error) / dt else 0
  | none => 0

structure PIDOut where
  duty : ℤ
  err : ℚ
  state : PIDState
  deriving DecidableEq

/-- One call of `PID.update` with gains `Kp Ki Kd`, target `setpoint`,
output limits `(lo, hi)`, current state `st`, process value `pv` and the
current clock value `now`. -/
def PID.update (Kp Ki Kd setpoint lo hi : ℚ) (st : PIDState) (pv now : ℚ) :
    PIDOut :=
  let e := setpoint - pv
  let dt := pidDt st.last_time now
  let d := pidDeriv st.last_time dt e st.last_error
  let integral := st.integral + e * dt
  let out := Kp * e + Ki * integral + Kd * d
  let clamped := max lo (min hi out)
  ⟨pyInt clamped, e, ⟨integral, e, some now⟩⟩

/-! ## Claims C2, C3, C9 -/

/-- C2: for every setpoint, measurement, timestamp and accumulated PID state,
`PID.update` with the configured output limits `(0, 255)` returns a duty value
within `[0, 255]`: the raw PID output is clamped to the limits and then
truncated to an integer. -/
theorem C2_pid_output_bounded (Kp Ki Kd setpoint : ℚ) (st : PIDState)
    (pv now : ℚ) :
    0 ≤ (PID.update Kp Ki Kd setpoint 0 255 st pv now).duty ∧
    (PID.update Kp Ki Kd setpoint 0 255 st pv now).duty ≤ 255 := by
  unfold PID.update
  set out := Kp * (setpoint - pv) +
    Ki * (st.integral + (setpoint - pv) * pidDt st.last_time now) +
    Kd * pidDeriv st.last_time (pidDt st.last_time now) (setpoint - pv)
      st.last_error with hout
  simp only
  have h0 : (0 : ℚ) ≤ max 0 (min 255 out) := le_max_left _ _
  have h255 : max 0 (min 255 out) ≤ 255 := by
    apply max_le (by norm_num)
    exact min_le_left _ _
  rw [pyInt, if_pos h0]
  constructor
  · exact Int.le_floor.mpr (by exact_mod_cast h0)
  · calc ⌊max 0 (min 255 out)⌋ ≤ ⌊(255 : ℚ)⌋ := Int.floor_le_floor h255
      _ = 255 := by norm_num

/-- C3: if the filter has no previous value it accepts `v`, stores it as the
new baseline and returns it; if `|v - p| ≤ max_delta` it returns `v` and moves
the baseline to `v`; if `|v - p| > max_delta` it returns the previous value
and leaves the state unchanged. -/
theorem C3_outlier_filter_cases (f : OutlierFilter) (v : ℚ) :
    (f.prev = none →
      f.update v = (v, ⟨some v, f.max_delta⟩)) ∧
    (∀ p, f.prev = some p → |v - p| ≤ f.max_delta →
      f.update v = (v, ⟨some v, f.max_delta⟩)) ∧
    (∀ p, f.prev = some p → f.max_delta < |v - p| →
      f.update v = (p, f)) := by
  refine ⟨fun h => ?_, fun p hp hle => ?_, fun p hp hgt => ?_⟩
  · simp [OutlierFilter.update, h]
  · simp [OutlierFilter.update, hp, pyAbs_eq_abs, not_lt.mpr hle]
  · simp [OutlierFilter.update, hp, pyAbs_eq_abs, hgt]

/-- Witness for C3 at a concrete state and value: previous value `10`,
`max_delta = 80`, new value `50` (an accepted step). -/
theorem C3_outlier_filter_cases_witness :
    OutlierFilter.update ⟨some 10, 80⟩ 50 = (50, ⟨some 50, 80⟩) := by
  have h := (C3_outlier_filter_cases ⟨some 10, 80⟩ 50).2.1 10 rfl (by norm_num)
  simpa using h

/-- C9: a `PID.update` call whose timestamp equals the stored `last_time`
(the state left by a previous call at the same clock value), and likewise the
very first call (`last_time = none`), has `dt = 0`, contributes a zero
derivative term, and leaves the integral accumulator unchanged. -/
theorem C9_pid_zero_dt (Kp Ki Kd setpoint lo hi : ℚ) (st : PIDState)
    (pv now : ℚ) (h : st.last_time = some now ∨ st.last_time = none) :
    pidDt st.last_time now = 0 ∧
    pidDeriv st.last_time (pidDt st.last_time now) (setpoint - pv)
      st.last_error = 0 ∧
    (PID.update Kp Ki Kd setpoint lo hi st pv now).state.integral =
      st.integral := by
  have hdt : pidDt st.last_time now = 0 := by
    rcases h with h | h <;> rw [h]
    · by_cases hz : now = 0 <;> simp [pidDt, hz]
    · rfl
  have hd : pidDeriv st.last_time (pidDt st.last_time now) (setpoint - pv)
      st.last_error = 0 := by
    rcases h with h | h <;> rw [hdt, h]
    · simp [pidDeriv]
    · rfl
  refine ⟨hdt, hd, ?_⟩
  simp [PID.update, hdt]

/-- Witness for C9: a state whose `last_time` is `3`, updated again at clock
value `3`: the integral stays at `5`. -/
theorem C9_pid_zero_dt_witness :
    pidDt (some 3) 3 = 0 ∧
    pidDeriv (some 3) (pidDt (some 3) 3) ((200 : ℚ) - 7) 2 = 0 ∧
    (PID.update 1 1 1 200 0 255 ⟨5, 2, some 3⟩ 7 3).state.integral = 5 := by
  exact C9_pid_zero_dt 1 1 1 200 0 255 ⟨5, 2, some 3⟩ 7 3 (Or.inl rfl)

/-! ## Control-loop run model

`T_control_loop_2.main` and `PWM_CTE.main` are modelled as recursion over a
finite script of ticks.  Each tick records the measurement available at that
tick (`none` models a failed acquisition) and whether the serial write
attempted at that tick succeeds; a failed write raises in Python and aborts
the loop body, falling through to the `finally` block.  Script exhaustion
models the operator-driven exits (window close / `KeyboardInterrupt`). -/

structure Tick where
  time : ℚ
  meas : Option ℚ
  write_ok : Bool
  deriving DecidableEq

/-- Result of the preheat loop of `T_control_loop_2.main`:
the successful duty writes, the logged temperatures, the tick index at which
the loop broke to the PID phase (if any), the unconsumed script, and whether
the loop was aborted by a raised serial write. -/
structure PreheatRes where
  writes : List ℤ
  logged : List ℚ
  transition : Option ℕ
  rest : List Tick
  aborted : Bool
  deriving DecidableEq

/-- The preheat loop of `T_control_loop_2.main`:

```python
while True:
    temp = read_temperature_from_roi(x, y, w, h)
    ser.write(bytes([PWM_PREHEAT]))
    if temp is not None:
        csv_writer.writerow([...])
        if temp >= PREHEAT_TARGET:
            break
    time.sleep(0.0025)
```

with `PWM_PREHEAT = int(1 * 255) = 255`. -/
def preheatLoop (target : ℚ) : List Tick → PreheatRes
  | [] => ⟨[], [], none, [], false⟩
  | t :: ts =>
    if t.write_ok then
      match t.meas with
      | some v =>
        if target ≤ v then
          ⟨[255], [v], some 0, ts, false⟩
        else
          let r := preheatLoop target ts
          ⟨255 :: r.writes, v :: r.logged, r.transition.map (· + 1), r.rest,
            r.aborted⟩
      | none =>
        let r := preheatLoop target ts
        ⟨255 :: r.writes, r.logged, r.transition.map (· + 1), r.rest,
          r.aborted⟩
    else ⟨[], [], none, ts, true⟩

/-- The index of the first tick whose measurement is present and at least
`target` (the transition condition of the preheat loop, stated directly from
the spec's words). -/
def firstTrigger (target : ℚ) : List Tick → Option ℕ
  | [] => none
  | t :: ts =>
    match t.meas with
    | some v =>
      if target ≤ v then some 0 else (firstTrigger target ts).map (· + 1)
    | none => (firstTrigger target ts).map (· + 1)

/-- Result of the PID (active) loop: the successful duty writes and whether a
raised serial write aborted the loop. -/
structure ActiveRes where
  writes : List ℤ
  aborted : Bool
  deriving DecidableEq

/-- The PID loop of `T_control_loop_2.main`: at each tick with a measurement,
filter it, run the PID, and write the duty; absent measurements skip
control and logging for the tick but keep looping. -/
def activeLoop (Kp Ki Kd setpoint lo hi : ℚ) (f : OutlierFilter)
    (st : PIDState) : List Tick → ActiveRes
  | [] => ⟨[], false⟩
  | t :: ts =>
    match t.meas with
    | some v =>
      let fr := f.update v
      let pr := PID.update Kp Ki Kd setpoint lo hi st fr.1 t.time
      if t.write_ok then
        let r := activeLoop Kp Ki Kd setpoint lo hi fr.2 pr.state ts
        ⟨pr.duty :: r.writes, r.aborted⟩
      else ⟨[], true⟩
    | none => activeLoop Kp Ki Kd setpoint lo hi f st ts

/-- Outcome of a whole run: every successful duty write in order, and whether
the log file was flushed and closed on exit. -/
structure RunOutcome where
  writes : List ℤ
  log_flushed : Bool
  log_closed : Bool
  deriving DecidableEq

/-- The `finally` block of `T_control_loop_2.main`:

```python
finally:
    ser.write(bytes([0])); print("\nPWM = 0%"); ser.close()
    try:
        csv_file.flush(); csv_file.close()
    except Exception:
        pass
```

The zero write is *not* guarded: if it raises (`zero_ok = false`), the rest
of the `finally` block is skipped and the log is neither flushed nor
closed. -/
def tclShutdown (ws : List ℤ) (zero_ok : Bool) : RunOutcome :=
  if zero_ok then ⟨ws ++ [0], true, true⟩ else ⟨ws, false, false⟩

/-- The `finally` block of `PWM_CTE.main`:

```python
finally:
    try:
        ser.write(bytes([0])); print("\nPWM = 0%")
    except Exception:
        pass
    stop_evt.set(); thr.join(timeout=1.0); ser.close()
    try:
        csv_file.flush(); csv_file.close()
    except Exception:
        pass
```

The zero write is guarded, so the log is flushed and closed regardless. -/
def pwmShutdown (ws : List ℤ) (zero_ok : Bool) : RunOutcome :=
  ⟨ws ++ (if zero_ok then [0] else []), true, true⟩

/-- A whole run of `T_control_loop_2.main`.  The initial preheat write
(line `ser.write(bytes([PWM_PREHEAT]))`, succeeding iff `init_ok`) and the
whole preheat loop (`PREHEAT_TARGET = 170.0`) run *before* the `try:` of
line 133, which wraps only the PID loop.  Consequently a raised serial write
or a `KeyboardInterrupt` during the preheat phase propagates out of `main`
without ever entering the `try` — the `finally` shutdown block does not run:
no zero-duty write is attempted and the log is neither flushed nor closed.
Only when preheat completes its transition does the PID loop (`Kp = 0.75`,
`Ki = 0.78`, `Kd = 0`, `SETPOINT0 = 200.0`, limits `(0, 255)`, a fresh
`OutlierFilter(max_delta=80)`) run inside the `try/finally`, whose every
exit — window close, `KeyboardInterrupt`, or a raised write — executes the
shutdown block.  `zero_ok` tells whether the shutdown's own zero-duty write
succeeds. -/
def tclRun (init_ok : Bool) (ticks : List Tick) (zero_ok : Bool) :
    RunOutcome :=
  if init_ok then
    if (preheatLoop 170 ticks).aborted then
      ⟨255 :: (preheatLoop 170 ticks).writes, false, false⟩
    else
      match (preheatLoop 170 ticks).transition with
      | none => ⟨255 :: (preheatLoop 170 ticks).writes, false, false⟩
      | some _ =>
        tclShutdown (255 :: (preheatLoop 170 ticks).writes ++
          (activeLoop 0.75 0.78 0 200 0 255 ⟨none, 80⟩ ⟨0, 0, none⟩
            (preheatLoop 170 ticks).rest).writes) zero_ok
  else ⟨[], false, false⟩

/-- A tick of `PWM_CTE.main`: the manual duty currently commanded, the
measurement available from the shared latest-sample slot, and whether the
serial write attempted at this tick succeeds. -/
structure PTick where
  time : ℚ
  pwm : ℤ
  meas : Option ℚ
  write_ok : Bool
  deriving DecidableEq

/-- Result of the manual-PWM loop of `PWM_CTE.main`: successful duty writes,
the threshold-crossing record (elapsed time and filtered value), and whether
a raised serial write aborted the loop. -/
structure PwmRes where
  writes : List ℤ
  crossing : Option (ℚ × ℚ)
  aborted : Bool
  deriving DecidableEq

/-- The main loop of `PWM_CTE.main`: each tick writes the current manual duty,
then — if a measurement is present — filters it and, when no crossing has
been recorded yet and the filtered value reaches the threshold, records the
crossing time and value:

```python
ser.write(bytes([pwm]))
temp = latest["temp"]
if temp is not None:
    tf = outlier.update(temp)
    if crossing_time_rel is None and tf >= THRESHOLD_C:
        crossing_time_rel = t
        ...
``` -/
def pwmLoop (thr : ℚ) (f : OutlierFilter) (cross : Option (ℚ × ℚ)) :
    List PTick → PwmRes
  | [] => ⟨[], cross, false⟩
  | t :: ts =>
    if t.write_ok then
      match t.meas with
      | some v =>
        let fr := f.update v
        let cross2 :=
          match cross with
          | some c => some c
          | none => if thr ≤ fr.1 then some (t.time, fr.1) else none
        let r := pwmLoop thr fr.2 cross2 ts
        ⟨t.pwm :: r.writes, r.crossing, r.aborted⟩
      | none =>
        let r := pwmLoop thr f cross ts
        ⟨t.pwm :: r.writes, r.crossing, r.aborted⟩
    else ⟨[], cross, true⟩

/-- A whole run of `PWM_CTE.main`: the loop with `THRESHOLD_C = 300.0` and
`OutlierFilter(max_delta=70)`, followed by the shutdown block. -/
def pwmRun (ticks : List PTick) (zero_ok : Bool) : RunOutcome :=
  pwmShutdown (pwmLoop 300 ⟨none, 70⟩ none ticks).writes zero_ok

/-- The filtered-measurement trace of a tick script paired with each tick's
elapsed time: the reference sequence against which the crossing record is
compared. -/
def timedFiltTrace (f : OutlierFilter) : List PTick → List (ℚ × Option ℚ)
  | [] => []
  | t :: ts =>
    match t.meas with
    | some v =>
      let fr := f.update v
      (t.time, some fr.1) :: timedFiltTrace fr.2 ts
    | none => (t.time, none) :: timedFiltTrace f ts

/-- The first element of a timed value sequence whose value is present and
reaches the threshold (stated directly from the spec's words). -/
def firstCross (thr : ℚ) : List (ℚ × Option ℚ) → Option (ℚ × ℚ)
  | [] => none
  | (tm, m) :: ms =>
    match m with
    | some tf => if thr ≤ tf then some (tm, tf) else firstCross thr ms
    | none => firstCross thr ms

/-! ## Claims C6, C7, C1 -/

/-- C6: in a preheat run with no serial-write failure, the loop commands the
fixed maximum preheat duty (255) on every iteration, transitions to the PID
phase exactly at the first tick whose measurement is present and reaches the
preheat target (absent measurements never trigger, and the single `Option`
transition index is the run's one transition), and performs one duty write
per iteration up to and including the transition tick. -/
theorem C6_preheat_transition (target : ℚ) (ticks : List Tick)
    (h : ∀ t ∈ ticks, t.write_ok = true) :
    (∀ w ∈ (preheatLoop target ticks).writes, w = 255) ∧
    (preheatLoop target ticks).transition = firstTrigger target ticks ∧
    (preheatLoop target ticks).writes.length =
      (firstTrigger target ticks).elim ticks.length (fun i => i + 1) := by
  induction ticks with
  | nil => simp [preheatLoop, firstTrigger]
  | cons t ts ih =>
    have hok : t.write_ok = true := h t (by simp)
    have hts : ∀ u ∈ ts, u.write_ok = true := fun u hu => h u (by simp [hu])
    obtain ⟨ih1, ih2, ih3⟩ := ih hts
    cases hm : t.meas with
    | some v =>
      by_cases hv : target ≤ v
      · simp [preheatLoop, firstTrigger, hok, hm, hv]
      · refine ⟨?_, ?_, ?_⟩
        · intro w hw
          simp only [preheatLoop, hok, hm, if_neg hv, if_true] at hw
          simp only [List.mem_cons] at hw
          rcases hw with rfl | hw
          · rfl
          · exact ih1 w hw
        · simp [preheatLoop, firstTrigger, hok, hm, hv, ih2]
        · simp only [preheatLoop, firstTrigger, hok, hm, if_neg hv, if_true,
            List.length_cons, ih3]
          cases firstTrigger target ts <;> simp
    | none =>
      refine ⟨?_, ?_, ?_⟩
      · intro w hw
        simp only [preheatLoop, hok, hm, if_true] at hw
        simp only [List.mem_cons] at hw
        rcases hw with rfl | hw
        · rfl
        · exact ih1 w hw
      · simp [preheatLoop, firstTrigger, hok, hm, ih2]
      · simp only [preheatLoop, firstTrigger, hok, hm, if_true,
          List.length_cons, ih3]
        cases firstTrigger target ts <;> simp

/-- Witness for C6: the spec's scenario — target `150`, measurements
`[20, 60, 110, 150, 151]`, no write failure — transitions exactly at tick 3,
the first tick whose measurement reaches `150`. -/
theorem C6_preheat_transition_witness :
    (∀ w ∈ (preheatLoop 150
        [⟨0, some 20, true⟩, ⟨1, some 60, true⟩, ⟨2, some 110, true⟩,
         ⟨3, some 150, true⟩, ⟨4, some 151, true⟩]).writes, w = 255) ∧
    (preheatLoop 150
        [⟨0, some 20, true⟩, ⟨1, some 60, true⟩, ⟨2, some 110, true⟩,
         ⟨3, some 150, true⟩, ⟨4, some 151, true⟩]).transition =
      firstTrigger 150
        [⟨0, some 20, true⟩, ⟨1, some 60, true⟩, ⟨2, some 110, true⟩,
         ⟨3, some 150, true⟩, ⟨4, some 151, true⟩] ∧
    firstTrigger 150
        [⟨0, some 20, true⟩, ⟨1, some 60, true⟩, ⟨2, some 110, true⟩,
         ⟨3, some 150, true⟩, ⟨4, some 151, true⟩] = some 3 := by
  have h := C6_preheat_transition 150
    [⟨0, some 20, true⟩, ⟨1, some 60, true⟩, ⟨2, some 110, true⟩,
     ⟨3, some 150, true⟩, ⟨4, some 151, true⟩] (by with_unfolding_all decide)
  exact ⟨h.1, h.2.1, by with_unfolding_all decide⟩

/-- Once a crossing has been recorded, no later tick changes it, whatever the
measurements or write outcomes. -/
theorem pwmLoop_crossing_stable (thr : ℚ) (f : OutlierFilter) (c : ℚ × ℚ)
    (ticks : List PTick) :
    (pwmLoop thr f (some c) ticks).crossing = some c := by
  induction ticks generalizing f with
  | nil => rfl
  | cons t ts ih =>
    cases hok : t.write_ok
    · simp [pwmLoop, hok]
    · cases hm : t.meas <;> simp [pwmLoop, hok, hm, ih]

/-- C7: in a run with no serial-write failure, the crossing record produced
by the loop is exactly the first element of the filtered-measurement trace
that reaches the threshold (capturing that tick's elapsed time and filtered
value); and once a crossing is recorded, every subsequent tick leaves it
unchanged, even if the filtered measurement oscillates around the
threshold. -/
theorem C7_threshold_crossing (thr : ℚ) (f : OutlierFilter)
    (ticks : List PTick) (h : ∀ t ∈ ticks, t.write_ok = true) :
    (pwmLoop thr f none ticks).crossing =
      firstCross thr (timedFiltTrace f ticks) ∧
    (∀ c : ℚ × ℚ, (pwmLoop thr f (some c) ticks).crossing = some c) := by
  refine ⟨?_, fun c => pwmLoop_crossing_stable thr f c ticks⟩
  induction ticks generalizing f with
  | nil => rfl
  | cons t ts ih =>
    have hok : t.write_ok = true := h t (by simp)
    have hts : ∀ u ∈ ts, u.write_ok = true := fun u hu => h u (by simp [hu])
    cases hm : t.meas with
    | some v =>
      by_cases hv : thr ≤ (f.update v).1
      · simp [pwmLoop, timedFiltTrace, firstCross, hok, hm, hv,
          pwmLoop_crossing_stable]
      · simp [pwmLoop, timedFiltTrace, firstCross, hok, hm, hv, ih _ hts]
    | none => simp [pwmLoop, timedFiltTrace, firstCross, hok, hm, ih _ hts]

/-- Witness for C7: the spec's scenario — threshold `300`, a measurement
sequence that first reaches `300` at tick 7 (value `301`) and afterwards
oscillates between `295` and `305`; exactly one crossing is recorded, at
tick time 7 with value `301`, and a recorded crossing is never replaced. -/
theorem C7_threshold_crossing_witness :
    (pwmLoop 300 ⟨none, 70⟩ none
        [⟨0, 100, some 250, true⟩, ⟨1, 100, some 260, true⟩,
         ⟨2, 100, some 270, true⟩, ⟨3, 100, some 280, true⟩,
         ⟨4, 100, some 285, true⟩, ⟨5, 100, some 290, true⟩,
         ⟨6, 100, some 295, true⟩, ⟨7, 100, some 301, true⟩,
         ⟨8, 100, some 295, true⟩, ⟨9, 100, some 305, true⟩,
         ⟨10, 100, some 298, true⟩, ⟨11, 100, some 302, true⟩]).crossing =
      firstCross 300 (timedFiltTrace ⟨none, 70⟩
        [⟨0, 100, some 250, true⟩, ⟨1, 100, some 260, true⟩,
         ⟨2, 100, some 270, true⟩, ⟨3, 100, some 280, true⟩,
         ⟨4, 100, some 285, true⟩, ⟨5, 100, some 290, true⟩,
         ⟨6, 100, some 295, true⟩, ⟨7, 100, some 301, true⟩,
         ⟨8, 100, some 295, true⟩, ⟨9, 100, some 305, true⟩,
         ⟨10, 100, some 298, true⟩, ⟨11, 100, some 302, true⟩]) ∧
    firstCross 300 (timedFiltTrace ⟨none, 70⟩
        [⟨0, 100, some 250, true⟩, ⟨1, 100, some 260, true⟩,
         ⟨2, 100, some 270, true⟩, ⟨3, 100, some 280, true⟩,
         ⟨4, 100, some 285, true⟩, ⟨5, 100, some 290, true⟩,
         ⟨6, 100, some 295, true⟩, ⟨7, 100, some 301, true⟩,
         ⟨8, 100, some 295, true⟩, ⟨9, 100, some 305, true⟩,
         ⟨10, 100, some 298, true⟩, ⟨11, 100, some 302, true⟩]) =
      some (7, 301) := by
  have h := C7_threshold_crossing 300 ⟨none, 70⟩
    [⟨0, 100, some 250, true⟩, ⟨1, 100, some 260, true⟩,
     ⟨2, 100, some 270, true⟩, ⟨3, 100, some 280, true⟩,
     ⟨4, 100, some 285, true⟩, ⟨5, 100, some 290, true⟩,
     ⟨6, 100, some 295, true⟩, ⟨7, 100, some 301, true⟩,
     ⟨8, 100, some 295, true⟩, ⟨9, 100, some 305, true⟩,
     ⟨10, 100, some 298, true⟩, ⟨11, 100, some 302, true⟩] (by with_unfolding_all decide)
  exact ⟨h.1, by with_unfolding_all decide⟩

/-- A preheat run that reached its transition was not aborted by a raised
write: the abort branch always reports `transition = none`. -/
theorem preheatLoop_isSome_not_aborted (target : ℚ) (ticks : List Tick)
    (h : (preheatLoop target ticks).transition.isSome = true) :
    (preheatLoop target ticks).aborted = false := by
  induction ticks with
  | nil => rfl
  | cons t ts ih =>
    cases hok : t.write_ok with
    | false => simp [preheatLoop, hok] at h
    | true =>
      cases hm : t.meas with
      | some v =>
        by_cases hv : target ≤ v
        · simp [preheatLoop, hok, hm, hv]
        · simp only [preheatLoop, hok, hm, if_neg hv, if_true] at h ⊢
          apply ih
          cases hr : (preheatLoop target ts).transition with
          | none => rw [hr] at h; simp at h
          | some i => rfl
      | none =>
        simp only [preheatLoop, hok, hm, if_true] at h ⊢
        apply ih
        cases hr : (preheatLoop target ts).transition with
        | none => rw [hr] at h; simp at h
        | some i => rfl

/-- C1 fails as stated: a keyboard interruption during the preheat phase of
`T_control_loop_2.main` (here: a run whose script ends after one sub-target
preheat tick, with every serial write succeeding, zero write included) exits
with the final successful duty write at `255` (not `0`) and the log neither
flushed nor closed, because the preheat loop runs before the `try:` of
line 133 and so never reaches the `finally` shutdown block. -/
theorem C1_counterexample :
    ¬ (((tclRun true [⟨0, some 20, true⟩] true).writes.getLast? =
          some 0) ∧
       (tclRun true [⟨0, some 20, true⟩] true).log_closed = true) := by
  decide

/-- C1 amended: in `PWM_CTE.main` every exit path of the control loop —
normal completion / window close, keyboard interruption, or an unhandled
failure including a fatal actuator-write error — runs the `finally` shutdown
block: the log is always flushed and closed, and whenever the shutdown's
guarded zero-duty write succeeds the final duty written is `0`.  In
`T_control_loop_2.main` the same guarantee holds exactly for the exit paths
of the Active (PID) phase — i.e. for runs whose preheat phase completed its
transition — and only provided the shutdown's own unguarded zero-duty write
succeeds; preheat-phase exits bypass the `try/finally` entirely. -/
theorem C1_shutdown_zero_duty (ticks : List Tick) (pticks : List PTick)
    (z : Bool)
    (hpre : (preheatLoop 170 ticks).transition.isSome = true) :
    ((tclRun true ticks true).writes.getLast? = some 0 ∧
     (tclRun true ticks true).log_flushed = true ∧
     (tclRun true ticks true).log_closed = true) ∧
    ((pwmRun pticks true).writes.getLast? = some 0 ∧
     (pwmRun pticks true).log_flushed = true ∧
     (pwmRun pticks true).log_closed = true) ∧
    ((pwmRun pticks z).log_flushed = true ∧
     (pwmRun pticks z).log_closed = true) := by
  refine ⟨?_, ⟨?_, rfl, rfl⟩, rfl, rfl⟩
  · obtain ⟨i, hi⟩ := Option.isSome_iff_exists.mp hpre
    have hab : (preheatLoop 170 ticks).aborted = false :=
      preheatLoop_isSome_not_aborted 170 ticks hpre
    have hrun : tclRun true ticks true =
        tclShutdown (255 :: (preheatLoop 170 ticks).writes ++
          (activeLoop 0.75 0.78 0 200 0 255 ⟨none, 80⟩ ⟨0, 0, none⟩
            (preheatLoop 170 ticks).rest).writes) true := by
      rw [tclRun, if_pos rfl, if_neg (by simp [hab]), hi]
    rw [hrun]
    exact ⟨List.getLast?_concat _, rfl, rfl⟩
  · simp [pwmRun, pwmShutdown, List.getLast?_concat]

/-- Witness for C1 (amended): a run whose single preheat tick reads `200 ≥
170` transitions immediately, exits the Active phase by window close, and
with a succeeding shutdown zero write ends on duty `0` with the log closed;
`PWM_CTE.main` on an empty script likewise ends on duty `0`. -/
theorem C1_shutdown_zero_duty_witness :
    (tclRun true [⟨0, some 200, true⟩] true).writes.getLast? = some 0 ∧
    (tclRun true [⟨0, some 200, true⟩] true).log_closed = true ∧
    (pwmRun [] true).writes.getLast? = some 0 := by
  have h := C1_shutdown_zero_duty [⟨0, some 200, true⟩] [] true
    (by with_unfolding_all decide)
  exact ⟨h.1.1, h.1.2.2, h.2.1.1⟩

/-! ## Sampler workers (`PWM_CTE.py`, `ocr_worker` and `reader_worker`)

Both workers call `read_temp2.read_temperature_from_roi`, whose entire body
is wrapped in `try: ... except Exception: return None` — an acquisition error
surfaces to the worker as `None`, never as an exception.  `reader_worker`
additionally wraps its own call in `try/except`.  One worker iteration is
modelled as a function of the current shared slot, the raw acquisition
outcome, the wall-clock time `now` at a successful read, and the elapsed
time of the iteration body. -/

/-- Raw outcome of one acquisition attempt inside
`read_temp2.read_temperature_from_roi`: a numeric reading, a `None` result
(nothing detected / invalid mapping), or a raised capture error. -/
inductive AcqRaw
  | value (v : ℚ)
  | nothingRead
  | raisedError
  deriving DecidableEq

/-- `read_temp2.read_temperature_from_roi`: its body is wrapped in
`try: ... except Exception: return None`, so a raised capture or processing
error is returned as `None`. -/
def read_temperature_from_roi (r : AcqRaw) : Option ℚ :=
  match r with
  | .value v => some v
  | .nothingRead => none
  | .raisedError => none

/-- The shared latest-sample slot `latest = {"temp": None, "ts": 0.0}`. -/
structure Slot where
  temp : Option ℚ
  ts : ℚ
  deriving DecidableEq

/-- Result of one worker iteration: the slot after the iteration, the bound
passed to `stop_evt.wait`, and whether the loop reaches its next cycle. -/
structure WorkerIter where
  slot : Slot
  wait_bound : ℚ
  continues : Bool
  deriving DecidableEq

/-- `OCR_PERIOD = 0.08`. -/
def OCR_PERIOD : ℚ := 0.08

/-- `READ_PERIOD = 0.02`. -/
def READ_PERIOD : ℚ := 0.02

/-- One iteration of `PWM_CTE.ocr_worker`:

```python
tstart = perf_counter()
tmp = read_temperature_from_roi(x, y, w, h)
if tmp is not None:
    latest["temp"] = tmp
    latest["ts"] = time.time()
dt = perf_counter() - tstart
remain = max(0.0, OCR_PERIOD - dt)
stop_evt.wait(remain)
``` -/
def ocr_worker_iter (s : Slot) (r : AcqRaw) (now elapsed : ℚ) : WorkerIter :=
  match read_temperature_from_roi r with
  | some v => ⟨⟨some v, now⟩, max 0 (OCR_PERIOD - elapsed), true⟩
  | none => ⟨s, max 0 (OCR_PERIOD - elapsed), true⟩

/-- One iteration of `PWM_CTE.reader_worker` (second `main`): identical to
`ocr_worker` except that the acquisition call sits inside an additional
`try: ... except Exception: pass` and the cadence is `READ_PERIOD`. -/
def reader_worker_iter (s : Slot) (r : AcqRaw) (now elapsed : ℚ) :
    WorkerIter :=
  match r with
  | .raisedError => ⟨s, max 0 (READ_PERIOD - elapsed), true⟩
  | _ =>
    match read_temperature_from_roi r with
    | some v => ⟨⟨some v, now⟩, max 0 (READ_PERIOD - elapsed), true⟩
    | none => ⟨s, max 0 (READ_PERIOD - elapsed), true⟩

/-- `stop_evt.wait(bound)`: returns after `bound` seconds, or as soon as the
stop event is set (`stop_after` = time until the already-running wait sees
the stop signal, `none` when the signal is never set). -/
def eventWait (stop_after : Option ℚ) (bound : ℚ) : ℚ :=
  match stop_after with
  | none => bound
  | some st => min (max st 0) bound

/-- C8: in every sampler-worker iteration (both `ocr_worker` and
`reader_worker`), a successful acquisition overwrites the shared slot with
the value and its timestamp; a `None` result or a raised acquisition error
leaves the slot unchanged and the loop continues to the next cycle without
raising; the bound of the wait before the next cycle is
`max(0, period - elapsed)` and the wait is interruptible: it never exceeds
its bound and ends as soon as the stop signal is observed. -/
theorem C8_sampler_slot (s : Slot) (r : AcqRaw) (now elapsed : ℚ) :
    (∀ v, r = AcqRaw.value v →
      (ocr_worker_iter s r now elapsed).slot = ⟨some v, now⟩ ∧
      (reader_worker_iter s r now elapsed).slot = ⟨some v, now⟩) ∧
    (r = AcqRaw.nothingRead ∨ r = AcqRaw.raisedError →
      (ocr_worker_iter s r now elapsed).slot = s ∧
      (reader_worker_iter s r now elapsed).slot = s) ∧
    (ocr_worker_iter s r now elapsed).continues = true ∧
    (reader_worker_iter s r now elapsed).continues = true ∧
    (ocr_worker_iter s r now elapsed).wait_bound =
      max 0 (OCR_PERIOD - elapsed) ∧
    (reader_worker_iter s r now elapsed).wait_bound =
      max 0 (READ_PERIOD - elapsed) ∧
    (∀ stp b, eventWait stp b ≤ b) ∧
    (∀ b, 0 ≤ b → eventWait (some 0) b = 0) := by
  refine ⟨fun v hv => ?_, fun h => ?_, ?_, ?_, ?_, ?_, fun stp b => ?_,
    fun b hb => ?_⟩
  · subst hv
    exact ⟨rfl, rfl⟩
  · rcases h with h | h <;> subst h <;> exact ⟨rfl, rfl⟩
  · cases r <;> rfl
  · cases r <;> rfl
  · cases r <;> rfl
  · cases r <;> rfl
  · cases stp with
    | none => exact le_refl b
    | some st => exact min_le_right _ _
  · simp [eventWait, hb]

/-- Witness for C8: a raised acquisition error at a concrete slot leaves the
slot `{temp = some 42, ts = 1}` unchanged in both workers, and the wait bound
is `max 0 (period - elapsed)`. -/
theorem C8_sampler_slot_witness :
    (ocr_worker_iter ⟨some 42, 1⟩ AcqRaw.raisedError 2 (1/100)).slot =
      ⟨some 42, 1⟩ ∧
    (reader_worker_iter ⟨some 42, 1⟩ AcqRaw.raisedError 2 (1/100)).slot =
      ⟨some 42, 1⟩ := by
  have h := C8_sampler_slot ⟨some 42, 1⟩ AcqRaw.raisedError 2 (1/100)
  exact h.2.1 (Or.inr rfl)

/-! ## Calibration LUT builder (`gray_calibrate.py`,
`build_intensity_to_temp_lut`)

The input is the averaged 1-D intensity profile `line` (the result of
`_average_along_thin_axis`, one intensity sample per pixel along the
gradient's long axis).  The builder clips intensities to `[0, 255]`, aborts
if the intensity range (max − min) is below 30, sorts the (intensity,
position) samples by intensity, takes the median position of each distinct
intensity, interpolates a position for every grayscale value `0..255`
(`np.interp`, which clamps outside the observed intensity range), and maps
positions to temperatures from the configured endpoints. -/

/-- `np.clip(x, 0, 255)` on one sample. -/
def clip255 (x : ℚ) : ℚ := min 255 (max 0 x)

/-- `np.linspace(0.0, 1.0, L)`. -/
def linspace01 (L : ℕ) : List ℚ :=
  if L ≤ 1 then List.replicate L 0
  else (List.range L).map (fun (i : ℕ) => (i : ℚ) / ((L : ℚ) - 1))

/-- `np.max` of a nonempty sample list (`0` for the empty list, on which
numpy raises instead). -/
def listMax : List ℚ → ℚ
  | [] => 0
  | x :: xs => xs.foldl max x

/-- `np.min` of a nonempty sample list. -/
def listMin : List ℚ → ℚ
  | [] => 0
  | x :: xs => xs.foldl min x

/-- Insert one (intensity, position) sample into a list sorted by
intensity. -/
def insertPairBy (p : ℚ × ℚ) : List (ℚ × ℚ) → List (ℚ × ℚ)
  | [] => [p]
  | q :: qs => if p.1 ≤ q.1 then p :: q :: qs else q :: insertPairBy p qs

/-- `np.argsort` applied to the samples: sort by intensity.  (Ties keep all
equal-intensity samples adjacent; the grouping below only uses the multiset
of positions per intensity, so the tie order is irrelevant, as it is for
`np.argsort`.) -/
def sortPairs : List (ℚ × ℚ) → List (ℚ × ℚ)
  | [] => []
  | p :: ps => insertPairBy p (sortPairs ps)

/-- Insert a rational into a sorted list (ascending). -/
def insertQ (x : ℚ) : List ℚ → List ℚ
  | [] => [x]
  | y :: ys => if x ≤ y then x :: y :: ys else y :: insertQ x ys

/-- Sort a list of rationals (ascending), as `np.median` does internally. -/
def sortQ : List ℚ → List ℚ
  | [] => []
  | x :: xs => insertQ x (sortQ xs)

/-- `np.median`: middle element of the sorted values for odd length, mean of
the two middle elements for even length. -/
def median (xs : List ℚ) : ℚ :=
  let s := sortQ xs
  let n := s.length
  if n % 2 = 1 then s.getD (n / 2) 0
  else (s.getD (n / 2 - 1) 0 + s.getD (n / 2) 0) / 2

/-- Group the sorted samples into runs of equal intensity, collecting the
positions of each run (the `while j < len(sorted_intensities)` loop). -/
def groupRuns : List (ℚ × ℚ) → List (ℚ × List ℚ)
  | [] => []
  | (i, p) :: rest =>
    match groupRuns rest with
    | [] => [(i, [p])]
    | (j, ps) :: gs =>
      if i = j then (j, p :: ps) :: gs else (i, [p]) :: (j, ps) :: gs

/-- `np.interp(x, xs, fps)` over knots sorted by strictly increasing `xs`:
clamps to the first/last value outside the observed range, linear
interpolation inside. -/
def interp (x : ℚ) : List (ℚ × ℚ) → ℚ
  | [] => 0
  | [(_, y0)] => y0
  | (x0, y0) :: (x1, y1) :: rest =>
    if x ≤ x0 then y0
    else if x ≤ x1 then y0 + (x - x0) * (y1 - y0) / (x1 - x0)
    else interp x ((x1, y1) :: rest)

/-- The intensity range `np.max(intensities) - np.min(intensities)` after
clipping, the quantity tested by the insufficient-gradient check. -/
def intensityRange (line : List ℚ) : ℚ :=
  listMax (line.map clip255) - listMin (line.map clip255)

/-- `gray_calibrate.build_intensity_to_temp_lut` on the averaged profile
`line`: `none` models the `RuntimeError` raised on an insufficient gradient
(and the numpy error on an empty profile); otherwise the 256-entry
intensity → temperature table. -/
def build_intensity_to_temp_lut (line : List ℚ) (T_min T_max : ℚ)
    (hot_at_start : Bool) : Option (List ℚ) :=
  if line = [] then none
  else
    if intensityRange line < 30 then none
    else
      some (((List.range 256).map (fun (g : ℕ) =>
          interp (g : ℚ)
            ((groupRuns (sortPairs ((line.map clip255).zip
                (linspace01 line.length)))).map
              (fun run => (run.1, median run.2))))).map (fun p =>
        if hot_at_start then T_max - p * (T_max - T_min)
        else T_min + p * (T_max - T_min)))

/-! ## Claim C4 -/

/-- C4 fails as stated: the profile `[0, 10]` has two distinct observed
intensities, yet the builder aborts with the insufficient-gradient failure,
because the code's check is `max - min < 30`, not "fewer than 2 distinct
intensities". -/
theorem C4_counterexample :
    build_intensity_to_temp_lut [0, 10] 100 300 true = none ∧
    (([(0 : ℚ), 10].map clip255).dedup.length = 2) := by
  with_unfolding_all decide

/-- C4 amended: the builder aborts with the hard insufficient-gradient
failure exactly when the range (max − min) of the observed clipped
intensities is below 30 gray levels — in particular a flat all-identical
input (range 0) always fails — and every nonempty input whose intensity
range is at least 30 produces a 256-entry table. -/
theorem C4_insufficient_gradient (line : List ℚ) (T_min T_max : ℚ)
    (hot : Bool) (hne : line ≠ []) :
    (build_intensity_to_temp_lut line T_min T_max hot = none ↔
      intensityRange line < 30) ∧
    (30 ≤ intensityRange line →
      ∃ lut, build_intensity_to_temp_lut line T_min T_max hot = some lut ∧
        lut.length = 256) := by
  unfold build_intensity_to_temp_lut
  rw [if_neg hne]
  by_cases h30 : intensityRange line < 30
  · simp [h30]
  · constructor
    · simp [h30]
    · intro _
      rw [if_neg h30]
      refine ⟨_, rfl, ?_⟩
      simp only [List.length_map, List.length_range]

/-- Witness for C4 (amended) at a concrete profile `[0, 100]` with range
`100`: the builder does not abort, and abort is equivalent to the range
being under 30. -/
theorem C4_insufficient_gradient_witness :
    (build_intensity_to_temp_lut [0, 100] 100 300 true = none ↔
      intensityRange [0, 100] < 30) ∧
    build_intensity_to_temp_lut [0, 100] 100 300 true ≠ none := by
  have h := C4_insufficient_gradient [0, 100] 100 300 true (by simp)
  have h30 : ¬ intensityRange [(0 : ℚ), 100] < 30 := by
    with_unfolding_all decide
  exact ⟨h.1, fun hn => h30 (h.1.mp hn)⟩

/-! ## Claim C5: the perfectly linear synthetic gradient

Helper lemmas characterising the builder's pipeline on inputs whose
intensities are already sorted and pairwise distinct. -/

theorem sortPairs_of_sorted (l : List (ℚ × ℚ))
    (h : l.Pairwise (fun a b => a.1 ≤ b.1)) : sortPairs l = l := by
  induction l with
  | nil => rfl
  | cons p ps ih =>
    rw [List.pairwise_cons] at h
    rw [sortPairs, ih h.2]
    cases ps with
    | nil => rfl
    | cons q qs => simp [insertPairBy, h.1 q (by simp)]

theorem groupRuns_of_ne (l : List (ℚ × ℚ))
    (h : l.Chain' (fun a b => a.1 ≠ b.1)) :
    groupRuns l = l.map (fun q => (q.1, [q.2])) := by
  induction l with
  | nil => rfl
  | cons p ps ih =>
    obtain ⟨i, pv⟩ := p
    rw [groupRuns, ih h.tail]
    cases ps with
    | nil => rfl
    | cons q qs =>
      have hne : i ≠ q.1 := (List.chain'_cons.mp h).1
      simp [List.map_cons, hne]

theorem median_singleton (x : ℚ) : median [x] = x := by
  simp [median, sortQ, insertQ]

theorem chain'_fst_lt_head (q : ℚ × ℚ) (l : List (ℚ × ℚ))
    (h : (q :: l).Chain' (fun a b => a.1 < b.1)) :
    ∀ k ∈ l, q.1 < k.1 := by
  induction l generalizing q with
  | nil => simp
  | cons r rs ih =>
    intro k hk
    have h1 : q.1 < r.1 := (List.chain'_cons.mp h).1
    rcases List.mem_cons.mp hk with rfl | hk
    · exact h1
    · exact h1.trans (ih r (List.chain'_cons.mp h).2 k hk)

theorem interp_knot (l : List (ℚ × ℚ))
    (h : l.Chain' (fun a b => a.1 < b.1)) :
    ∀ k ∈ l, interp k.1 l = k.2 := by
  induction l with
  | nil => simp
  | cons q0 tail ih =>
    cases tail with
    | nil =>
      intro k hk
      obtain ⟨x0, y0⟩ := q0
      rcases List.mem_singleton.mp hk with rfl
      rfl
    | cons q1 rest =>
      intro k hk
      obtain ⟨x0, y0⟩ := q0
      obtain ⟨x1, y1⟩ := q1
      have h01 : x0 < x1 := (List.chain'_cons.mp h).1
      have htail : ((x1, y1) :: rest).Chain' (fun a b => a.1 < b.1) :=
        (List.chain'_cons.mp h).2
      rcases List.mem_cons.mp hk with rfl | hk
      · simp [interp]
      · have hx0 : x0 < k.1 := chain'_fst_lt_head (x0, y0) _ h k hk
        rcases List.mem_cons.mp hk with rfl | hk2
        · have hgap : x1 - x0 ≠ 0 := by
            intro hz
            exact absurd (by linarith : x0 = x1) (ne_of_lt h01)
          simp only [interp, if_neg (not_le.mpr hx0), le_refl, if_pos]
          field_simp
        · have hx1 : x1 < k.1 := chain'_fst_lt_head (x1, y1) rest htail k hk2
          simp only [interp, if_neg (not_le.mpr hx0),
            if_neg (not_le.mpr hx1)]
          exact ih htail k hk

/-- The perfectly linear synthetic gradient: intensity `n` at pixel `n`,
`n = 0..255`, so positions `0..1` map linearly onto intensities `0..255`. -/
def linearLine : List ℚ := (List.range 256).map (fun (n : ℕ) => (n : ℚ))

theorem map_clip255_linearLine : linearLine.map clip255 = linearLine := by
  rw [linearLine, List.map_map]
  refine List.map_congr_left fun n hn => ?_
  have h255 : (n : ℚ) ≤ 255 := by
    have : n < 256 := List.mem_range.mp hn
    exact_mod_cast Nat.le_of_lt_succ this
  have h0 : (0 : ℚ) ≤ (n : ℚ) := Nat.cast_nonneg n
  simp [clip255, max_eq_right h0, min_eq_right h255]

theorem le_foldl_max (l : List ℚ) (acc b : ℚ) (h : b ≤ acc) :
    b ≤ l.foldl max acc := by
  induction l generalizing acc with
  | nil => exact h
  | cons y ys ih => exact ih _ (le_trans h (le_max_left acc y))

theorem mem_le_foldl_max (l : List ℚ) (acc y : ℚ) (h : y ∈ l) :
    y ≤ l.foldl max acc := by
  induction l generalizing acc with
  | nil => cases h
  | cons z zs ih =>
    rcases List.mem_cons.mp h with rfl | h2
    · rw [List.foldl_cons]
      exact le_foldl_max _ _ _ (le_max_right acc y)
    · exact ih _ h2

theorem le_listMax (l : List ℚ) (y : ℚ) (h : y ∈ l) : y ≤ listMax l := by
  cases l with
  | nil => cases h
  | cons x xs =>
    rw [listMax]
    rcases List.mem_cons.mp h with rfl | h2
    · exact le_foldl_max _ _ _ (le_refl y)
    · exact mem_le_foldl_max _ _ _ h2

theorem foldl_min_le (l : List ℚ) (acc b : ℚ) (h : acc ≤ b) :
    l.foldl min acc ≤ b := by
  induction l generalizing acc with
  | nil => exact h
  | cons y ys ih => exact ih _ (le_trans (min_le_left acc y) h)

theorem mem_foldl_min_le (l : List ℚ) (acc y : ℚ) (h : y ∈ l) :
    l.foldl min acc ≤ y := by
  induction l generalizing acc with
  | nil => cases h
  | cons z zs ih =>
    rcases List.mem_cons.mp h with rfl | h2
    · rw [List.foldl_cons]
      exact foldl_min_le _ _ _ (min_le_right acc y)
    · exact ih _ h2

theorem listMin_le (l : List ℚ) (y : ℚ) (h : y ∈ l) : listMin l ≤ y := by
  cases l with
  | nil => cases h
  | cons x xs =>
    rw [listMin]
    rcases List.mem_cons.mp h with rfl | h2
    · exact foldl_min_le _ _ _ (le_refl y)
    · exact mem_foldl_min_le _ _ _ h2

theorem intensityRange_linearLine : 255 ≤ intensityRange linearLine := by
  rw [intensityRange, map_clip255_linearLine]
  have h255 : (255 : ℚ) ∈ linearLine :=
    List.mem_map.mpr ⟨255, List.mem_range.mpr (by norm_num), by norm_num⟩
  have h0 : (0 : ℚ) ∈ linearLine :=
    List.mem_map.mpr ⟨0, List.mem_range.mpr (by norm_num), by norm_num⟩
  have hmax := le_listMax linearLine 255 h255
  have hmin := listMin_le linearLine 0 h0
  linarith

set_option maxRecDepth 40000 in
theorem build_linear :
    build_intensity_to_temp_lut linearLine 100 300 true =
      some ((List.range 256).map
        (fun (g : ℕ) => 300 - (g : ℚ) / 255 * 200)) := by
  have hne : linearLine ≠ [] := by simp [linearLine]
  have h30 : ¬ intensityRange linearLine < 30 := by
    have := intensityRange_linearLine
    linarith
  rw [build_intensity_to_temp_lut, if_neg hne, if_neg h30]
  have hlen : linearLine.length = 256 := by simp [linearLine]
  have hpos : linspace01 linearLine.length =
      (List.range 256).map (fun (i : ℕ) => (i : ℚ) / 255) := by
    rw [hlen, linspace01, if_neg (by norm_num)]
    refine List.map_congr_left fun i _ => ?_
    norm_num
  have hzip : (linearLine.map clip255).zip (linspace01 linearLine.length) =
      (List.range 256).map (fun (i : ℕ) => ((i : ℚ), (i : ℚ) / 255)) := by
    rw [map_clip255_linearLine, hpos, linearLine, List.zip_map']
  have hpairwise : ((List.range 256).map
      (fun (i : ℕ) => ((i : ℚ), (i : ℚ) / 255))).Pairwise
      (fun a b => a.1 ≤ b.1) := by
    refine (List.pairwise_lt_range 256).map _ fun a b hab => ?_
    show (a : ℚ) ≤ (b : ℚ)
    exact_mod_cast le_of_lt hab
  have hchain_ne : ((List.range 256).map
      (fun (i : ℕ) => ((i : ℚ), (i : ℚ) / 255))).Chain'
      (fun a b => a.1 ≠ b.1) := by
    refine List.Pairwise.chain' ?_
    refine (List.pairwise_lt_range 256).map _ fun a b hab => ?_
    show (a : ℚ) ≠ (b : ℚ)
    exact ne_of_lt (by exact_mod_cast hab)
  have hknots : (groupRuns (sortPairs
      ((linearLine.map clip255).zip (linspace01 linearLine.length)))).map
        (fun run => (run.1, median run.2)) =
      (List.range 256).map (fun (i : ℕ) => ((i : ℚ), (i : ℚ) / 255)) := by
    rw [hzip, sortPairs_of_sorted _ hpairwise, groupRuns_of_ne _ hchain_ne,
      List.map_map, List.map_map]
    refine List.map_congr_left fun n _ => ?_
    simp [median_singleton]
  have hchain_lt : ((List.range 256).map
      (fun (i : ℕ) => ((i : ℚ), (i : ℚ) / 255))).Chain'
      (fun a b => a.1 < b.1) := by
    refine List.Pairwise.chain' ?_
    refine (List.pairwise_lt_range 256).map _ fun a b hab => ?_
    show (a : ℚ) < (b : ℚ)
    exact_mod_cast hab
  rw [hknots, List.map_map]
  congr 1
  refine List.map_congr_left fun g hg => ?_
  have hmem : ((g : ℚ), (g : ℚ) / 255) ∈
      (List.range 256).map (fun (i : ℕ) => ((i : ℚ), (i : ℚ) / 255)) :=
    List.mem_map.mpr ⟨g, hg, rfl⟩
  have hi := interp_knot _ hchain_lt ((g : ℚ), (g : ℚ) / 255) hmem
  simp only [Function.comp]
  rw [hi]
  norm_num

/-- C5: the table built from the perfectly linear synthetic gradient
(intensity `0..255` linearly mapped to position `0..1`) with
`hot_at_start = true`, `T_min = 100`, `T_max = 300` has 256 entries, starts
at `300`, ends at `100`, and is monotonically non-increasing across all 255
adjacent steps. -/
theorem C5_linear_roundtrip :
    ((build_intensity_to_temp_lut linearLine 100 300 true).getD
      []).length = 256 ∧
    ((build_intensity_to_temp_lut linearLine 100 300 true).getD
      []).getD 0 0 = 300 ∧
    ((build_intensity_to_temp_lut linearLine 100 300 true).getD
      []).getD 255 0 = 100 ∧
    List.Chain' (fun a b : ℚ => b ≤ a)
      ((build_intensity_to_temp_lut linearLine 100 300 true).getD []) := by
  rw [build_linear, Option.getD_some]
  refine ⟨by simp, ?_, ?_, ?_⟩
  · rw [List.getD_eq_getElem?_getD, List.getElem?_map, List.getElem?_range
      (by norm_num : (0 : ℕ) < 256)]
    norm_num
  · rw [List.getD_eq_getElem?_getD, List.getElem?_map, List.getElem?_range
      (by norm_num : (255 : ℕ) < 256)]
    norm_num
  · rw [List.chain'_map, show (256 : ℕ) = 255 + 1 by norm_num,
      List.chain'_range_succ]
    intro m hm
    have hcast : ((m + 1 : ℕ) : ℚ) = (m : ℚ) + 1 := by push_cast; ring
    rw [hcast]
    linarith

/-! ## Claim C10: every successfully built table stays within the
configured temperature endpoints

The interpolated positions are confined to `[0, 1]` because every observed
position is, medians of position groups stay in the interval, and `np.interp`
never extrapolates past the first/last knot. -/

theorem getD_mem (l : List ℚ) (i : ℕ) (d : ℚ) (h : i < l.length) :
    l.getD i d ∈ l := by
  rw [List.getD_eq_getElem?_getD, List.getElem?_eq_getElem h]
  exact List.getElem_mem h

theorem mem_insertQ (x y : ℚ) (l : List ℚ) (h : y ∈ insertQ x l) :
    y = x ∨ y ∈ l := by
  induction l with
  | nil => exact Or.inl (List.mem_singleton.mp h)
  | cons z zs ih =>
    rw [insertQ] at h
    by_cases hle : x ≤ z
    · rw [if_pos hle] at h
      exact List.mem_cons.mp h
    · rw [if_neg hle] at h
      rcases List.mem_cons.mp h with rfl | h2
      · exact Or.inr (List.mem_cons_self _ _)
      · rcases ih h2 with rfl | h3
        · exact Or.inl rfl
        · exact Or.inr (List.mem_cons_of_mem _ h3)

theorem mem_sortQ (y : ℚ) (l : List ℚ) (h : y ∈ sortQ l) : y ∈ l := by
  induction l with
  | nil => exact absurd h (List.not_mem_nil y)
  | cons z zs ih =>
    rw [sortQ] at h
    rcases mem_insertQ z y _ h with rfl | h2
    · exact List.mem_cons_self _ _
    · exact List.mem_cons_of_mem _ (ih h2)

theorem length_insertQ (x : ℚ) (l : List ℚ) :
    (insertQ x l).length = l.length + 1 := by
  induction l with
  | nil => rfl
  | cons z zs ih =>
    rw [insertQ]
    by_cases hle : x ≤ z
    · rw [if_pos hle]; rfl
    · rw [if_neg hle]
      simp [ih]

theorem length_sortQ (l : List ℚ) : (sortQ l).length = l.length := by
  induction l with
  | nil => rfl
  | cons z zs ih => rw [sortQ, length_insertQ, ih]; rfl

theorem median_bounds (xs : List ℚ) (hne : xs ≠ [])
    (h : ∀ x ∈ xs, 0 ≤ x ∧ x ≤ 1) : 0 ≤ median xs ∧ median xs ≤ 1 := by
  have hs : ∀ x ∈ sortQ xs, 0 ≤ x ∧ x ≤ 1 := fun x hx => h x (mem_sortQ x xs hx)
  have hpos : 0 < (sortQ xs).length := by
    rw [length_sortQ]
    exact List.length_pos.mpr hne
  simp only [median]
  by_cases hodd : (sortQ xs).length % 2 = 1
  · rw [if_pos hodd]
    exact hs _ (getD_mem _ _ _ (Nat.div_lt_self hpos (by norm_num)))
  · rw [if_neg hodd]
    have h1 := hs _ (getD_mem (sortQ xs) ((sortQ xs).length / 2 - 1) 0
      (lt_of_le_of_lt (Nat.sub_le _ _)
        (Nat.div_lt_self hpos (by norm_num))))
    have h2 := hs _ (getD_mem (sortQ xs) ((sortQ xs).length / 2) 0
      (Nat.div_lt_self hpos (by norm_num)))
    constructor
    · linarith [h1.1, h2.1]
    · linarith [h1.2, h2.2]

theorem mem_insertPairBy (p q : ℚ × ℚ) (l : List (ℚ × ℚ))
    (h : q ∈ insertPairBy p l) : q = p ∨ q ∈ l := by
  induction l with
  | nil => exact Or.inl (List.mem_singleton.mp h)
  | cons z zs ih =>
    rw [insertPairBy] at h
    by_cases hle : p.1 ≤ z.1
    · rw [if_pos hle] at h
      exact List.mem_cons.mp h
    · rw [if_neg hle] at h
      rcases List.mem_cons.mp h with rfl | h2
      · exact Or.inr (List.mem_cons_self _ _)
      · rcases ih h2 with rfl | h3
        · exact Or.inl rfl
        · exact Or.inr (List.mem_cons_of_mem _ h3)

theorem mem_sortPairs (q : ℚ × ℚ) (l : List (ℚ × ℚ))
    (h : q ∈ sortPairs l) : q ∈ l := by
  induction l with
  | nil => exact absurd h (List.not_mem_nil q)
  | cons z zs ih =>
    rw [sortPairs] at h
    rcases mem_insertPairBy z q _ h with rfl | h2
    · exact List.mem_cons_self _ _
    · exact List.mem_cons_of_mem _ (ih h2)

theorem groupRuns_snd_ne_nil (l : List (ℚ × ℚ)) :
    ∀ g ∈ groupRuns l, g.2 ≠ [] := by
  induction l with
  | nil => simp [groupRuns]
  | cons a rest ih =>
    obtain ⟨i, pv⟩ := a
    intro g hg
    rw [groupRuns] at hg
    cases hrest : groupRuns rest with
    | nil =>
      rw [hrest] at hg
      rcases List.mem_singleton.mp hg with rfl
      simp
    | cons b gs =>
      rw [hrest] at hg
      obtain ⟨j, ps⟩ := b
      dsimp only at hg
      by_cases hij : i = j
      · rw [if_pos hij] at hg
        rcases List.mem_cons.mp hg with rfl | hg2
        · simp
        · exact ih g (hrest ▸ List.mem_cons_of_mem _ hg2)
      · rw [if_neg hij] at hg
        rcases List.mem_cons.mp hg with rfl | hg2
        · simp
        · exact ih g (hrest ▸ hg2)

theorem groupRuns_snd_mem (l : List (ℚ × ℚ)) :
    ∀ g ∈ groupRuns l, ∀ p ∈ g.2, ∃ q ∈ l, q.2 = p := by
  induction l with
  | nil => simp [groupRuns]
  | cons a rest ih =>
    obtain ⟨i, pv⟩ := a
    intro g hg p hp
    rw [groupRuns] at hg
    cases hrest : groupRuns rest with
    | nil =>
      rw [hrest] at hg
      rcases List.mem_singleton.mp hg with rfl
      rcases List.mem_singleton.mp hp with rfl
      exact ⟨(i, p), List.mem_cons_self _ _, rfl⟩
    | cons b gs =>
      rw [hrest] at hg
      obtain ⟨j, ps⟩ := b
      dsimp only at hg
      have lift : (∃ q ∈ rest, q.2 = p) → ∃ q ∈ (i, pv) :: rest, q.2 = p :=
        fun ⟨q, hq, hqe⟩ => ⟨q, List.mem_cons_of_mem _ hq, hqe⟩
      by_cases hij : i = j
      · rw [if_pos hij] at hg
        rcases List.mem_cons.mp hg with rfl | hg2
        · rcases List.mem_cons.mp hp with rfl | hp2
          · exact ⟨(i, p), List.mem_cons_self _ _, rfl⟩
          · exact lift (ih (j, ps) (hrest ▸ List.mem_cons_self _ _) p hp2)
        · exact lift (ih g (hrest ▸ List.mem_cons_of_mem _ hg2) p hp)
      · rw [if_neg hij] at hg
        rcases List.mem_cons.mp hg with rfl | hg2
        · rcases List.mem_singleton.mp hp with rfl
          exact ⟨(i, p), List.mem_cons_self _ _, rfl⟩
        · exact lift (ih g (hrest ▸ hg2) p hp)

theorem linspace01_bounds (L : ℕ) : ∀ x ∈ linspace01 L, 0 ≤ x ∧ x ≤ 1 := by
  intro x hx
  rw [linspace01] at hx
  by_cases hL : L ≤ 1
  · rw [if_pos hL] at hx
    rcases List.eq_of_mem_replicate hx with rfl
    norm_num
  · rw [if_neg hL] at hx
    obtain ⟨i, hi, rfl⟩ := List.mem_map.mp hx
    have hiL : i < L := List.mem_range.mp hi
    have hL2 : (2 : ℚ) ≤ (L : ℚ) := by
      have : 2 ≤ L := by omega
      exact_mod_cast this
    have hden : (0 : ℚ) < (L : ℚ) - 1 := by linarith
    constructor
    · exact div_nonneg (Nat.cast_nonneg i) (le_of_lt hden)
    · rw [div_le_one hden]
      have : ((i + 1 : ℕ) : ℚ) ≤ (L : ℚ) := by
        exact_mod_cast Nat.succ_le_of_lt hiL
      push_cast at this
      linarith

theorem interp_bounds (knots : List (ℚ × ℚ)) (x : ℚ)
    (h : ∀ k ∈ knots, 0 ≤ k.2 ∧ k.2 ≤ 1) :
    0 ≤ interp x knots ∧ interp x knots ≤ 1 := by
  induction knots with
  | nil => simp [interp]
  | cons q0 tail ih =>
    cases tail with
    | nil =>
      obtain ⟨a, b⟩ := q0
      exact h (a, b) (List.mem_singleton_self _)
    | cons q1 rest =>
      obtain ⟨x0, y0⟩ := q0
      obtain ⟨x1, y1⟩ := q1
      have h0 := h (x0, y0) (List.mem_cons_self _ _)
      have h1 := h (x1, y1) (List.mem_cons_of_mem _ (List.mem_cons_self _ _))
      by_cases hle0 : x ≤ x0
      · simpa [interp, hle0] using h0
      · by_cases hle1 : x ≤ x1
        · simp only [interp, if_neg hle0, if_pos hle1]
          have hx0 : x0 < x := not_le.mp hle0
          have hlt : 0 < x1 - x0 := by linarith
          have hw0 : 0 ≤ (x - x0) / (x1 - x0) :=
            div_nonneg (by linarith) (le_of_lt hlt)
          have hw1 : (x - x0) / (x1 - x0) ≤ 1 :=
            (div_le_one hlt).mpr (by linarith)
          have hrw : y0 + (x - x0) * (y1 - y0) / (x1 - x0) =
              y0 + (y1 - y0) * ((x - x0) / (x1 - x0)) := by ring
          rw [hrw]
          constructor
          · nlinarith [h0.1, h0.2, h1.1, h1.2]
          · nlinarith [h0.1, h0.2, h1.1, h1.2]
        · simp only [interp, if_neg hle0, if_neg hle1]
          exact ih fun k hk => h k (List.mem_cons_of_mem _ hk)

/-- C10: whenever the calibration build succeeds and `T_min ≤ T_max`, every
entry of the produced 256-entry table lies within `[T_min, T_max]` (for
either value of `hot_at_start`): interpolated positions are confined to
`[0, 1]`, so the position → temperature map cannot leave the configured
endpoints.  (On a failed build the table defaults to `[]` and the statement
is vacuous.) -/
theorem C10_lut_within_endpoints (line : List ℚ) (T_min T_max : ℚ)
    (hot : Bool) (hT : T_min ≤ T_max) :
    ∀ t ∈ (build_intensity_to_temp_lut line T_min T_max hot).getD [],
      T_min ≤ t ∧ t ≤ T_max := by
  intro t ht
  rw [build_intensity_to_temp_lut] at ht
  by_cases hne : line = []
  · rw [if_pos hne] at ht
    simp at ht
  · rw [if_neg hne] at ht
    by_cases h30 : intensityRange line < 30
    · rw [if_pos h30] at ht
      simp at ht
    · rw [if_neg h30, Option.getD_some] at ht
      obtain ⟨p, hp, rfl⟩ := List.mem_map.mp ht
      obtain ⟨g, _, rfl⟩ := List.mem_map.mp hp
      have hknot : ∀ k ∈ (groupRuns (sortPairs ((line.map clip255).zip
          (linspace01 line.length)))).map (fun run => (run.1, median run.2)),
          0 ≤ k.2 ∧ k.2 ≤ 1 := by
        intro k hk
        obtain ⟨run, hrun, rfl⟩ := List.mem_map.mp hk
        refine median_bounds run.2 (groupRuns_snd_ne_nil _ run hrun) ?_
        intro px hpx
        obtain ⟨q, hq, rfl⟩ := groupRuns_snd_mem _ run hrun px hpx
        obtain ⟨qi, qp⟩ := q
        have hz := mem_sortPairs _ _ hq
        exact linspace01_bounds line.length qp (List.of_mem_zip hz).2
      have hi := interp_bounds _ (g : ℚ) hknot
      cases hot
      · simp only [Bool.false_eq_true, if_false]
        constructor
        · nlinarith [hi.1, hi.2]
        · nlinarith [hi.1, hi.2]
      · simp only [if_true]
        constructor
        · nlinarith [hi.1, hi.2]
        · nlinarith [hi.1, hi.2]

/-- The table of a successful build always has 256 entries. -/
theorem build_getD_length (line : List ℚ) (T_min T_max : ℚ) (hot : Bool)
    (hne : line ≠ []) (h30 : ¬ intensityRange line < 30) :
    ((build_intensity_to_temp_lut line T_min T_max hot).getD
      []).length = 256 := by
  rw [build_intensity_to_temp_lut, if_neg hne, if_neg h30, Option.getD_some]
  simp only [List.length_map, List.length_range]

/-- Witness for C10: the first entry of the table built from the profile
`[0, 100]` with endpoints `100 ≤ 300` lies within `[100, 300]`. -/
theorem C10_lut_within_endpoints_witness :
    (100 : ℚ) ≤ ((build_intensity_to_temp_lut [0, 100] 100 300 true).getD
      []).getD 0 0 ∧
    ((build_intensity_to_temp_lut [0, 100] 100 300 true).getD
      []).getD 0 0 ≤ 300 := by
  have hlen : ((build_intensity_to_temp_lut [0, 100] 100 300 true).getD
      []).length = 256 :=
    build_getD_length [0, 100] 100 300 true (by simp)
      (by with_unfolding_all decide)
  exact C10_lut_within_endpoints [0, 100] 100 300 true (by norm_num) _
    (getD_mem _ 0 0 (by rw [hlen]; norm_num))

end ThermalWire
